import Mathlib

/-!
Verification of the Market State & Deterministic Execution Engine of the
polymarket-bot repository.

The TypeScript core is shallowly embedded: `decimal.js` values (prices, sizes,
fees, probabilities) become exact rationals `ℚ`, timestamps become integers
(milliseconds), JavaScript `Map`s become insertion-ordered association lists
with the same `get`/`set`/`delete`/iteration semantics, and the ambient
sources of nondeterminism used by the execution simulator (`Math.random()`,
`randomUUID()`, `new Date()`) become explicit oracle streams threaded through
the state.  Fallible lookups return `Option`.

Components covered, with their source files:
* order-book engine        `packages/storage/src/orderbook.ts`
* feature engine           `market-state-store.ts` and `math.ts` (core)
* risk gate                `core/src/risk-gate.ts` and `risk-manager.ts`
* execution simulator      `packages/execution/src/paper-execution-sim.ts`
-/

set_option linter.unusedVariables false

/-- One price level of an order book: a `(price, size)` pair
(`PriceLevel` in `packages/core/src/types.ts`). -/
structure PriceLevel where
  price : ℚ
  size : ℚ
deriving DecidableEq, Repr

/-- Buy/sell side of an order or trade. -/
inductive Side where
  | buy
  | sell
deriving DecidableEq, Repr

/-- Order type: limit or market. -/
inductive OrderType where
  | limit
  | market
deriving DecidableEq, Repr

/-- A trade print (`TradeRecord` in `market-state-store.ts`, re-exported by
`@pm-bot/core` and consumed by the execution simulator). -/
structure TradeRecord where
  tokenId : String
  price : ℚ
  size : ℚ
  side : Side
  timestamp : ℤ
deriving DecidableEq, Repr

namespace Storage

/-- The `OrderBook` record of `packages/core/src/types.ts`: per-token bid and
ask levels with an optional monotone sequence number and a last-update time. -/
structure OrderBook where
  marketId : String
  tokenId : String
  bids : List PriceLevel
  asks : List PriceLevel
  lastUpdate : ℤ
  sequence : Option ℤ
deriving DecidableEq, Repr

/-- State of an `InMemoryOrderBook` instance
(`packages/storage/src/orderbook.ts`): the current book plus the
`lastSequence` field. -/
structure InMemoryOrderBook where
  book : OrderBook
  lastSequence : Option ℤ
deriving DecidableEq, Repr

/-- Embeds `priceMap.set(level.price.toString(), level)`: JavaScript `Map.set` keyed
by the (canonical, hence injective) decimal string of the price — an existing
key is overwritten in place, a new key is appended in insertion order. -/
def mapSet (m : List PriceLevel) (l : PriceLevel) : List PriceLevel :=
  if m.any (fun e => e.price == l.price) then
    m.map (fun e => if e.price == l.price then l else e)
  else
    m ++ [l]

/-- Embeds `priceMap.delete(key)`: remove the entry with the given price, if any. -/
def mapDelete (m : List PriceLevel) (p : ℚ) : List PriceLevel :=
  m.filter (fun e => e.price != p)

/-- The price map built by `applyLevels`: existing levels inserted first (in
order), then each update applied in order — an update with `size ≤ 0` deletes
its price, any other update overwrites/inserts its level. -/
def buildPriceMap (existing updates : List PriceLevel) : List PriceLevel :=
  updates.foldl
    (fun m u => if u.size ≤ 0 then mapDelete m u.price else mapSet m u)
    (existing.foldl mapSet [])

/-- Embeds `levels.sort(comparator)` with the price comparator of `applyLevels`.
JavaScript's sort is modelled by insertion sort: the map's keys are pairwise
distinct prices, so every comparison sort returns the same list. -/
def sortLevels (desc : Bool) (ls : List PriceLevel) : List PriceLevel :=
  if desc then
    List.insertionSort (fun a b => b.price ≤ a.price) ls
  else
    List.insertionSort (fun a b => a.price ≤ b.price) ls

/-- Embeds `InMemoryOrderBook.applyLevels` (orderbook.ts lines 47–79): merge the
updates into the existing side via the price map, then fully re-sort
(descending for bids, ascending for asks). -/
def applyLevels (existing updates : List PriceLevel) (desc : Bool) : List PriceLevel :=
  sortLevels desc (buildPriceMap existing updates)

/-- The stale-delta guard of `applyDelta`: the delta is dropped exactly when
both the incoming `sequence` and the stored `lastSequence` are present and
`sequence ≤ lastSequence`. -/
def isStale (sequence lastSeq : Option ℤ) : Bool :=
  match sequence, lastSeq with
  | some sq, some last => sq ≤ last
  | _, _ => false

/-- Embeds `InMemoryOrderBook.applyDelta` (orderbook.ts lines 25–45): drop stale
deltas silently, otherwise merge both sides, stamp `lastUpdate` with the
current time, and record the sequence number when one is present. -/
def applyDelta (s : InMemoryOrderBook) (bids asks : List PriceLevel)
    (sequence : Option ℤ) (now : ℤ) : InMemoryOrderBook :=
  if isStale sequence s.lastSequence then s
  else
    { book :=
        { s.book with
          bids := applyLevels s.book.bids bids true
          asks := applyLevels s.book.asks asks false
          lastUpdate := now
          sequence := match sequence with
            | some sq => some sq
            | none => s.book.sequence }
      lastSequence := match sequence with
        | some sq => some sq
        | none => s.lastSequence }

/-- One inbound `OrderBookDelta` together with the wall-clock instant at which
it is applied (the `new Date()` taken inside `applyDelta`). -/
structure Delta where
  bids : List PriceLevel
  asks : List PriceLevel
  sequence : Option ℤ
  now : ℤ
deriving DecidableEq, Repr

/-- A sequence of `applyDelta` calls, applied left to right. -/
def applyDeltas (s : InMemoryOrderBook) (ds : List Delta) : InMemoryOrderBook :=
  ds.foldl (fun s d => applyDelta s d.bids d.asks d.sequence d.now) s

/-- Side invariant of a stored book: bids strictly descending by price, asks
strictly ascending by price (strictness subsumes per-side uniqueness), and
every stored size positive.  No cross-side relation is imposed, so a crossed
book satisfies the invariant. -/
def BookInvariant (b : OrderBook) : Prop :=
  b.bids.Pairwise (fun a c => c.price < a.price) ∧
  b.asks.Pairwise (fun a c => a.price < c.price) ∧
  (∀ l ∈ b.bids, 0 < l.size) ∧
  (∀ l ∈ b.asks, 0 < l.size)

/-- Pairwise-distinct prices in a list of levels. -/
def PricesNodup (m : List PriceLevel) : Prop :=
  m.Pairwise (fun a c => a.price ≠ c.price)

theorem mapSet_price_eq (l e : PriceLevel) :
    (if e.price == l.price then l else e).price = e.price := by
  by_cases h : e.price = l.price
  · simp [h]
  · simp [h]

theorem mapSet_pricesNodup {m : List PriceLevel} (h : PricesNodup m) (l : PriceLevel) :
    PricesNodup (mapSet m l) := by
  unfold mapSet
  split
  · refine List.Pairwise.map _ (fun a c hac => ?_) h
    rw [mapSet_price_eq, mapSet_price_eq]
    exact hac
  · rename_i hnone
    rw [PricesNodup, List.pairwise_append]
    refine ⟨h, List.pairwise_singleton _ _, ?_⟩
    intro a ha b hb
    rw [List.mem_singleton] at hb
    subst hb
    simp only [List.any_eq_true, beq_iff_eq, not_exists, not_and] at hnone
    exact hnone a ha

theorem mapSet_mem {m : List PriceLevel} {l x : PriceLevel} (hx : x ∈ mapSet m l) :
    x ∈ m ∨ x = l := by
  unfold mapSet at hx
  split at hx
  · rw [List.mem_map] at hx
    obtain ⟨a, ha, hax⟩ := hx
    by_cases h : a.price = l.price
    · simp [h] at hax; exact Or.inr hax.symm
    · simp [h] at hax; exact Or.inl (hax ▸ ha)
  · rw [List.mem_append, List.mem_singleton] at hx
    exact hx

theorem mapDelete_pricesNodup {m : List PriceLevel} (h : PricesNodup m) (p : ℚ) :
    PricesNodup (mapDelete m p) :=
  List.Pairwise.filter _ h

theorem mapDelete_mem {m : List PriceLevel} {p : ℚ} {x : PriceLevel}
    (hx : x ∈ mapDelete m p) : x ∈ m :=
  List.mem_of_mem_filter hx

theorem foldl_mapSet_pricesNodup (existing : List PriceLevel) :
    ∀ {acc : List PriceLevel}, PricesNodup acc →
      PricesNodup (existing.foldl mapSet acc) := by
  induction existing with
  | nil => intro acc h; exact h
  | cons e rest ih =>
    intro acc h
    exact ih (mapSet_pricesNodup h e)

theorem foldl_mapSet_mem {existing : List PriceLevel} :
    ∀ {acc : List PriceLevel} {x : PriceLevel},
      x ∈ existing.foldl mapSet acc → x ∈ acc ∨ x ∈ existing := by
  induction existing with
  | nil => intro acc x h; exact Or.inl h
  | cons e rest ih =>
    intro acc x h
    rcases ih h with h' | h'
    · rcases mapSet_mem h' with h'' | h''
      · exact Or.inl h''
      · exact Or.inr (h'' ▸ List.mem_cons_self e rest)
    · exact Or.inr (List.mem_cons_of_mem e h')

theorem foldl_updates_pricesNodup (updates : List PriceLevel) :
    ∀ {acc : List PriceLevel}, PricesNodup acc →
      PricesNodup (updates.foldl
        (fun m u => if u.size ≤ 0 then mapDelete m u.price else mapSet m u) acc) := by
  induction updates with
  | nil => intro acc h; exact h
  | cons u rest ih =>
    intro acc h
    rw [List.foldl_cons]
    refine ih ?_
    by_cases h0 : u.size ≤ 0
    · rw [if_pos h0]; exact mapDelete_pricesNodup h u.price
    · rw [if_neg h0]; exact mapSet_pricesNodup h u

theorem foldl_updates_sizesPos (updates : List PriceLevel) :
    ∀ {acc : List PriceLevel}, (∀ l ∈ acc, 0 < l.size) →
      ∀ l ∈ updates.foldl
        (fun m u => if u.size ≤ 0 then mapDelete m u.price else mapSet m u) acc,
        0 < l.size := by
  induction updates with
  | nil => intro acc h; exact h
  | cons u rest ih =>
    intro acc h
    rw [List.foldl_cons]
    refine ih ?_
    intro x hx
    by_cases h0 : u.size ≤ 0
    · rw [if_pos h0] at hx
      exact h x (mapDelete_mem hx)
    · rw [if_neg h0] at hx
      rcases mapSet_mem hx with hm | he
      · exact h x hm
      · rw [he]; exact lt_of_not_le h0

theorem buildPriceMap_pricesNodup (existing updates : List PriceLevel) :
    PricesNodup (buildPriceMap existing updates) :=
  foldl_updates_pricesNodup updates
    (foldl_mapSet_pricesNodup existing List.Pairwise.nil)

theorem buildPriceMap_sizesPos (existing updates : List PriceLevel)
    (hex : ∀ l ∈ existing, 0 < l.size) :
    ∀ l ∈ buildPriceMap existing updates, 0 < l.size := by
  refine foldl_updates_sizesPos updates (fun x hx => ?_)
  rcases foldl_mapSet_mem hx with h | h
  · exact absurd h (List.not_mem_nil x)
  · exact hex x h

instance : IsTotal PriceLevel (fun a b => a.price ≤ b.price) :=
  ⟨fun a b => le_total a.price b.price⟩

instance : IsTrans PriceLevel (fun a b => a.price ≤ b.price) :=
  ⟨fun _ _ _ hab hbc => le_trans hab hbc⟩

instance : IsTotal PriceLevel (fun a b => b.price ≤ a.price) :=
  ⟨fun a b => le_total b.price a.price⟩

instance : IsTrans PriceLevel (fun a b => b.price ≤ a.price) :=
  ⟨fun _ _ _ hab hbc => le_trans hbc hab⟩

theorem sortLevels_perm (desc : Bool) (ls : List PriceLevel) :
    (sortLevels desc ls).Perm ls := by
  unfold sortLevels
  cases desc
  · simp only [if_neg Bool.false_ne_true]
    exact List.perm_insertionSort _ ls
  · simp only [if_pos rfl]
    exact List.perm_insertionSort _ ls

theorem sortLevels_sorted_desc (ls : List PriceLevel) :
    (sortLevels true ls).Pairwise (fun a b => b.price ≤ a.price) := by
  simpa [sortLevels] using
    List.sorted_insertionSort (fun a b : PriceLevel => b.price ≤ a.price) ls

theorem sortLevels_sorted_asc (ls : List PriceLevel) :
    (sortLevels false ls).Pairwise (fun a b => a.price ≤ b.price) := by
  simpa [sortLevels] using
    List.sorted_insertionSort (fun a b : PriceLevel => a.price ≤ b.price) ls

theorem pricesNodup_symm : Symmetric (fun a c : PriceLevel => a.price ≠ c.price) :=
  fun _ _ h => h.symm

theorem applyLevels_strict_desc (existing updates : List PriceLevel) :
    (applyLevels existing updates true).Pairwise (fun a c => c.price < a.price) := by
  have hnd : PricesNodup (applyLevels existing updates true) :=
    (List.Perm.pairwise_iff (fun hab => Ne.symm hab)
      (sortLevels_perm true (buildPriceMap existing updates))).mpr
      (buildPriceMap_pricesNodup existing updates)
  have hsorted := sortLevels_sorted_desc (buildPriceMap existing updates)
  refine List.Pairwise.imp ?_ (List.Pairwise.and hsorted hnd)
  rintro a b ⟨hle, hne⟩
  exact lt_of_le_of_ne hle (fun h => hne h.symm)

theorem applyLevels_strict_asc (existing updates : List PriceLevel) :
    (applyLevels existing updates false).Pairwise (fun a c => a.price < c.price) := by
  have hnd : PricesNodup (applyLevels existing updates false) :=
    (List.Perm.pairwise_iff (fun hab => Ne.symm hab)
      (sortLevels_perm false (buildPriceMap existing updates))).mpr
      (buildPriceMap_pricesNodup existing updates)
  have hsorted := sortLevels_sorted_asc (buildPriceMap existing updates)
  refine List.Pairwise.imp ?_ (List.Pairwise.and hsorted hnd)
  rintro a b ⟨hle, hne⟩
  exact lt_of_le_of_ne hle hne

theorem applyLevels_sizesPos (existing updates : List PriceLevel) (desc : Bool)
    (hex : ∀ l ∈ existing, 0 < l.size) :
    ∀ l ∈ applyLevels existing updates desc, 0 < l.size := by
  intro l hl
  have hmem : l ∈ buildPriceMap existing updates :=
    (sortLevels_perm desc (buildPriceMap existing updates)).mem_iff.mp hl
  exact buildPriceMap_sizesPos existing updates hex l hmem

theorem applyDelta_invariant (s : InMemoryOrderBook) (bids asks : List PriceLevel)
    (sequence : Option ℤ) (now : ℤ) (h : BookInvariant s.book) :
    BookInvariant (applyDelta s bids asks sequence now).book := by
  unfold applyDelta
  split
  · exact h
  · obtain ⟨_, _, hbp, hap⟩ := h
    exact ⟨applyLevels_strict_desc s.book.bids bids,
      applyLevels_strict_asc s.book.asks asks,
      applyLevels_sizesPos s.book.bids bids true hbp,
      applyLevels_sizesPos s.book.asks asks false hap⟩

/-- C4: side ordering is an invariant of the order book.  Starting from any
book whose bid prices are strictly descending and ask prices strictly
ascending with positive sizes (per-side uniqueness is subsumed by
strictness, and crossed books are permitted by the invariant), any sequence
of `applyDelta` calls — arbitrary updates, with or without sequence numbers —
preserves strict per-side ordering, per-side price uniqueness, and size
positivity; no relation between the two sides is imposed. -/
theorem applyDeltas_preserves_bookInvariant (s : InMemoryOrderBook)
    (ds : List Delta) (h : BookInvariant s.book) :
    BookInvariant (applyDeltas s ds).book ∧
    ((applyDeltas s ds).book.bids.map (fun l => l.price)).Nodup ∧
    ((applyDeltas s ds).book.asks.map (fun l => l.price)).Nodup := by
  have hinv : BookInvariant (applyDeltas s ds).book := by
    unfold applyDeltas
    induction ds generalizing s with
    | nil => exact h
    | cons d rest ih =>
      rw [List.foldl_cons]
      exact ih _ (applyDelta_invariant s d.bids d.asks d.sequence d.now h)
  refine ⟨hinv, ?_, ?_⟩
  · rw [List.Nodup, List.pairwise_map]
    exact List.Pairwise.imp (fun hlt => ne_of_gt hlt) hinv.1
  · rw [List.Nodup, List.pairwise_map]
    exact List.Pairwise.imp (fun hlt => ne_of_lt hlt) hinv.2.1

/-- A well-formed but crossed book (best bid `0.6` ≥ best ask `0.5`), used to
instantiate the invariant theorems. -/
def exampleBook : InMemoryOrderBook :=
  { book :=
      { marketId := "m"
        tokenId := "t"
        bids := [⟨3/5, 5⟩]
        asks := [⟨1/2, 3⟩]
        lastUpdate := 0
        sequence := none }
    lastSequence := none }

/-- Two deltas: the first inserts/removes levels on both sides under sequence
number 1; the second carries the same sequence number, so it is dropped. -/
def exampleDeltas : List Delta :=
  [⟨[⟨11/20, 2⟩, ⟨3/5, 0⟩], [⟨13/25, 4⟩], some 1, 10⟩,
   ⟨[], [⟨1/2, -1⟩], some 1, 20⟩]

theorem exampleBook_invariant : BookInvariant exampleBook.book := by
  refine ⟨?_, ?_, ?_, ?_⟩ <;> simp [exampleBook, BookInvariant]

/-- Witness for the book invariant: the crossed example book satisfies the
invariant and keeps it across the example delta sequence. -/
theorem applyDeltas_preserves_bookInvariant_witness :
    BookInvariant exampleBook.book ∧
    (BookInvariant (applyDeltas exampleBook exampleDeltas).book ∧
      ((applyDeltas exampleBook exampleDeltas).book.bids.map (fun l => l.price)).Nodup ∧
      ((applyDeltas exampleBook exampleDeltas).book.asks.map (fun l => l.price)).Nodup) :=
  ⟨exampleBook_invariant,
    applyDeltas_preserves_bookInvariant exampleBook exampleDeltas exampleBook_invariant⟩

/-- C3: `applyDelta` is idempotent under stale sequence numbers — when the
stored last applied sequence is `last` and the incoming delta carries a
sequence `sq ≤ last`, the whole state (bid levels, ask levels, stored
sequence, and `lastUpdate` timestamp) is returned unchanged. -/
theorem applyDelta_stale_noop (s : InMemoryOrderBook) (bids asks : List PriceLevel)
    (sq last now : ℤ) (hlast : s.lastSequence = some last) (hsq : sq ≤ last) :
    applyDelta s bids asks (some sq) now = s := by
  unfold applyDelta
  rw [if_pos]
  simp [isStale, hlast, hsq]

/-- The example book annotated with sequence number 5 on both the stored book
and the `lastSequence` field. -/
def exampleBookSeq5 : InMemoryOrderBook :=
  { book := { exampleBook.book with sequence := some 5 }, lastSequence := some 5 }

/-- Witness for `applyDelta_stale_noop`: a concrete book with last sequence 5
is left untouched by a delta with sequence 3. -/
theorem applyDelta_stale_noop_witness :
    exampleBookSeq5.lastSequence = some 5 ∧ (3 : ℤ) ≤ 5 ∧
    applyDelta exampleBookSeq5 [⟨3/5, 1⟩] [] (some 3) 999 = exampleBookSeq5 :=
  ⟨rfl, by norm_num,
    applyDelta_stale_noop exampleBookSeq5 [⟨3/5, 1⟩] [] 3 5 999 rfl (by norm_num)⟩

end Storage

namespace PM

/-- The order-book shape used by the execution simulator and the feature
engine (`OrderBook` of `@pm-bot/polymarket`): per-token levels plus a
timestamp. -/
structure OrderBook where
  tokenId : String
  bids : List PriceLevel
  asks : List PriceLevel
  timestamp : ℤ
deriving DecidableEq, Repr

end PM

/-- Embeds `calculateMidPrice` (`packages/core/src/types.ts` lines 112–119): `null`
when either side is empty, otherwise the midpoint of the best bid and best
ask.  TypeScript applies it structurally to any book carrying `bids`/`asks`;
here it is stated for the simulator/feature book shape. -/
def calculateMidPrice (book : PM.OrderBook) : Option ℚ :=
  match book.bids, book.asks with
  | [], _ => none
  | _, [] => none
  | bestBid :: _, bestAsk :: _ => some ((bestBid.price + bestAsk.price) / 2)

/-- Embeds `calculateSpread` (`packages/core/src/types.ts` lines 103–110): `null`
when either side is empty, otherwise best ask minus best bid. -/
def calculateSpread (book : PM.OrderBook) : Option ℚ :=
  match book.bids, book.asks with
  | [], _ => none
  | _, [] => none
  | bestBid :: _, bestAsk :: _ => some (bestAsk.price - bestBid.price)

namespace Exec

/-- Embeds `OrderIntent` of `paper-execution-sim.ts`: an order registered with the
simulator.  `size` is mutated down to the remaining size on partial fills. -/
structure OrderIntent where
  id : String
  tokenId : String
  side : Side
  price : ℚ
  size : ℚ
  type : OrderType
  timestamp : ℤ
deriving DecidableEq, Repr

/-- Embeds `Fill` of `paper-execution-sim.ts`. -/
structure Fill where
  id : String
  orderId : String
  tokenId : String
  side : Side
  price : ℚ
  size : ℚ
  slippage : ℚ
  spreadPaid : ℚ
  fee : ℚ
  timestamp : ℤ
deriving DecidableEq, Repr

/-- Embeds `PaperExecutionSimConfig`: fee rate and passive-fill probability. -/
structure Config where
  feeRate : ℚ
  fillProbability : ℚ
deriving DecidableEq, Repr

/-- The ambient nondeterminism of the simulator made explicit: the stream of
`Math.random()` draws, of `randomUUID()` results, and of `new Date()`
readings, each consumed in call order. -/
structure Oracle where
  draws : List ℚ
  uuids : List String
  times : List ℤ
deriving DecidableEq, Repr

/-- Consume one `Math.random()` draw. -/
def nextDraw (o : Oracle) : ℚ × Oracle :=
  (o.draws.headD 0, { o with draws := o.draws.tail })

/-- Consume one `randomUUID()` result. -/
def nextUuid (o : Oracle) : String × Oracle :=
  (o.uuids.headD "", { o with uuids := o.uuids.tail })

/-- Consume one `new Date()` reading. -/
def nextTime (o : Oracle) : ℤ × Oracle :=
  (o.times.headD 0, { o with times := o.times.tail })

/-- Embeds `PaperExecutionSim.createFill` (lines 193–214): fee =
`price × size × feeRate`, slippage and spread-paid stored as absolute values,
id and timestamp drawn from the ambient oracles. -/
def createFill (cfg : Config) (order : OrderIntent)
    (price size slippage spreadPaid : ℚ) (o : Oracle) : Fill × Oracle :=
  let fee := price * size * cfg.feeRate
  let (uid, o) := nextUuid o
  let (t, o) := nextTime o
  ({ id := uid
     orderId := order.id
     tokenId := order.tokenId
     side := order.side
     price := price
     size := size
     slippage := |slippage|
     spreadPaid := |spreadPaid|
     fee := fee
     timestamp := t }, o)

/-- Embeds `PaperExecutionSim.fillMarketOrder` (lines 106–133): fill at the best
opposing level for `min(remaining, level size)`; no fill when the opposing
side is empty; slippage/spread-paid fall back to `0` when no mid price
exists. -/
def fillMarketOrder (cfg : Config) (order : OrderIntent) (book : PM.OrderBook)
    (o : Oracle) : Option Fill × Oracle :=
  match order.side with
  | Side.buy =>
    match book.asks with
    | [] => (none, o)
    | bestAsk :: _ =>
      let fillPrice := bestAsk.price
      let fillSize := min order.size bestAsk.size
      let slippage := match calculateMidPrice book with
        | some m => fillPrice - m
        | none => 0
      let spreadPaid := match calculateMidPrice book with
        | some m => fillPrice - m
        | none => 0
      let (f, o) := createFill cfg order fillPrice fillSize slippage spreadPaid o
      (some f, o)
  | Side.sell =>
    match book.bids with
    | [] => (none, o)
    | bestBid :: _ =>
      let fillPrice := bestBid.price
      let fillSize := min order.size bestBid.size
      let slippage := match calculateMidPrice book with
        | some m => m - fillPrice
        | none => 0
      let spreadPaid := match calculateMidPrice book with
        | some m => m - fillPrice
        | none => 0
      let (f, o) := createFill cfg order fillPrice fillSize slippage spreadPaid o
      (some f, o)

/-- The crossing test of `fillLimitOrder`: buy price ≥ best ask (ask side
non-empty), or sell price ≤ best bid (bid side non-empty).  The candidate
crossing fill carries `(price, size, slippage, spreadPaid)`. -/
def crossingFill (order : OrderIntent) (book : PM.OrderBook) (midPrice : ℚ) :
    Option (ℚ × ℚ × ℚ × ℚ) :=
  match order.side with
  | Side.buy =>
    match book.asks with
    | [] => none
    | bestAsk :: _ =>
      if bestAsk.price ≤ order.price then
        some (bestAsk.price, min order.size bestAsk.size,
          bestAsk.price - midPrice, bestAsk.price - midPrice)
      else none
  | Side.sell =>
    match book.bids with
    | [] => none
    | bestBid :: _ =>
      if order.price ≤ bestBid.price then
        some (bestBid.price, min order.size bestBid.size,
          midPrice - bestBid.price, midPrice - bestBid.price)
      else none

/-- The passive `wouldFill` test of `fillLimitOrder`: a supplied trade print
at or through the order's limit (trade price ≤ limit for a buy, ≥ limit for a
sell). -/
def tradeCrossesLimit (order : OrderIntent) (t : TradeRecord) : Bool :=
  match order.side with
  | Side.buy => t.price ≤ order.price
  | Side.sell => order.price ≤ t.price

/-- Embeds `PaperExecutionSim.fillLimitOrder` (lines 135–191): no fill without a mid
price; a crossing order fills immediately at the best opposing price;
otherwise a passive fill of the full remaining size at the limit price occurs
when a supplied trade crosses the limit and the probability draw succeeds. -/
def fillLimitOrder (cfg : Config) (order : OrderIntent) (book : PM.OrderBook)
    (trade : Option TradeRecord) (o : Oracle) : Option Fill × Oracle :=
  match calculateMidPrice book with
  | none => (none, o)
  | some midPrice =>
    match crossingFill order book midPrice with
    | some (p, sz, sl, sp) =>
      let (f, o) := createFill cfg order p sz sl sp o
      (some f, o)
    | none =>
      match trade with
      | none => (none, o)
      | some t =>
        if tradeCrossesLimit order t then
          let (d, o) := nextDraw o
          if d < cfg.fillProbability then
            let slippage := match order.side with
              | Side.buy => order.price - midPrice
              | Side.sell => midPrice - order.price
            let (f, o) := createFill cfg order order.price order.size slippage 0 o
            (some f, o)
          else (none, o)
        else (none, o)

/-- Embeds `PaperExecutionSim.attemptFill` (lines 94–104). -/
def attemptFill (cfg : Config) (order : OrderIntent) (book : PM.OrderBook)
    (trade : Option TradeRecord) (o : Oracle) : Option Fill × Oracle :=
  match order.type with
  | OrderType.market => fillMarketOrder cfg order book o
  | OrderType.limit => fillLimitOrder cfg order book trade o

/-- Mutable state of a `PaperExecutionSim` instance: the open-order map (a
JavaScript `Map` keyed by order id, iterated in insertion order) and the
accumulated fill log. -/
structure SimState where
  openOrders : List OrderIntent
  fills : List Fill
deriving DecidableEq, Repr

/-- Embeds `placeOrder`: `Map.set` on the open-order table. -/
def placeOrder (s : SimState) (intent : OrderIntent) : SimState :=
  { s with openOrders :=
      if s.openOrders.any (fun e => e.id == intent.id) then
        s.openOrders.map (fun e => if e.id == intent.id then intent else e)
      else
        s.openOrders ++ [intent] }

/-- Embeds `cancelOrder`: `Map.delete` on the open-order table. -/
def cancelOrder (s : SimState) (orderId : String) : SimState :=
  { s with openOrders := s.openOrders.filter (fun e => e.id != orderId) }

/-- The loop body of `processMarketUpdate` for one open order: skip other
tokens; on a fill, record it and either drop the order (remaining ≤ 0) or
keep it with its size reduced in place. -/
def processOrder (cfg : Config) (tokenId : String) (book : PM.OrderBook)
    (trade : Option TradeRecord)
    (acc : List OrderIntent × List Fill × Oracle) (order : OrderIntent) :
    List OrderIntent × List Fill × Oracle :=
  let (orders, newFills, o) := acc
  if order.tokenId != tokenId then
    (orders ++ [order], newFills, o)
  else
    match attemptFill cfg order book trade o with
    | (none, o) => (orders ++ [order], newFills, o)
    | (some f, o) =>
      let remaining := order.size - f.size
      if remaining ≤ 0 then
        (orders, newFills ++ [f], o)
      else
        (orders ++ [{ order with size := remaining }], newFills ++ [f], o)

/-- Embeds `PaperExecutionSim.processMarketUpdate` (lines 58–92): iterate the open
orders in registration order, attempt a fill for each order on this token,
append the produced fills to the log, and return the new fills. -/
def processMarketUpdate (cfg : Config) (s : SimState) (tokenId : String)
    (book : PM.OrderBook) (trade : Option TradeRecord) (o : Oracle) :
    SimState × List Fill × Oracle :=
  let (orders, newFills, o) :=
    s.openOrders.foldl (processOrder cfg tokenId book trade) ([], [], o)
  ({ openOrders := orders, fills := s.fills ++ newFills }, newFills, o)

/-- One call against a `PaperExecutionSim` instance. -/
inductive Event where
  | place (intent : OrderIntent)
  | cancel (orderId : String)
  | update (tokenId : String) (book : PM.OrderBook) (trade : Option TradeRecord)
deriving Repr

/-- Dispatch of one call against the simulator state. -/
def applyEvent (cfg : Config) (acc : SimState × Oracle) (e : Event) :
    SimState × Oracle :=
  match e with
  | Event.place i => (placeOrder acc.1 i, acc.2)
  | Event.cancel oid => (cancelOrder acc.1 oid, acc.2)
  | Event.update tid b t =>
    let (s, _, o) := processMarketUpdate cfg acc.1 tid b t acc.2
    (s, o)

/-- A run of the simulator: the ordered call sequence applied to a fresh
instance, with the oracles threaded through. -/
def runEvents (cfg : Config) (events : List Event) (o : Oracle) :
    SimState × Oracle :=
  events.foldl (applyEvent cfg) (⟨[], []⟩, o)

/-- The deterministic content of a fill: everything except the `randomUUID`
id and the wall-clock timestamp. -/
def fillData (f : Fill) : String × String × Side × ℚ × ℚ × ℚ × ℚ × ℚ :=
  (f.orderId, f.tokenId, f.side, f.price, f.size, f.slippage, f.spreadPaid, f.fee)

end Exec

namespace Exec

theorem createFill_data_eq (cfg : Config) (ord : OrderIntent)
    (p sz sl sp : ℚ) (o₁ o₂ : Oracle) :
    fillData (createFill cfg ord p sz sl sp o₁).1
      = fillData (createFill cfg ord p sz sl sp o₂).1 := by
  simp [createFill, fillData]

theorem createFill_draws (cfg : Config) (ord : OrderIntent)
    (p sz sl sp : ℚ) (o : Oracle) :
    (createFill cfg ord p sz sl sp o).2.draws = o.draws := by
  simp [createFill, nextUuid, nextTime]

theorem fillMarketOrder_sync (cfg : Config) (ord : OrderIntent)
    (book : PM.OrderBook) (o₁ o₂ : Oracle) (hd : o₁.draws = o₂.draws) :
    (fillMarketOrder cfg ord book o₁).1.map fillData
      = (fillMarketOrder cfg ord book o₂).1.map fillData ∧
    (fillMarketOrder cfg ord book o₁).2.draws
      = (fillMarketOrder cfg ord book o₂).2.draws := by
  unfold fillMarketOrder
  cases ord.side
  · cases book.asks with
    | nil => exact ⟨rfl, hd⟩
    | cons a rest =>
      constructor
      · simp only [Option.map_some]
        exact congrArg some (createFill_data_eq cfg ord _ _ _ _ o₁ o₂)
      · rw [createFill_draws, createFill_draws]
        exact hd
  · cases book.bids with
    | nil => exact ⟨rfl, hd⟩
    | cons b rest =>
      constructor
      · simp only [Option.map_some]
        exact congrArg some (createFill_data_eq cfg ord _ _ _ _ o₁ o₂)
      · rw [createFill_draws, createFill_draws]
        exact hd

theorem fillLimitOrder_sync (cfg : Config) (ord : OrderIntent)
    (book : PM.OrderBook) (trade : Option TradeRecord) (o₁ o₂ : Oracle)
    (hd : o₁.draws = o₂.draws) :
    (fillLimitOrder cfg ord book trade o₁).1.map fillData
      = (fillLimitOrder cfg ord book trade o₂).1.map fillData ∧
    (fillLimitOrder cfg ord book trade o₁).2.draws
      = (fillLimitOrder cfg ord book trade o₂).2.draws := by
  unfold fillLimitOrder
  cases hm : calculateMidPrice book with
  | none => exact ⟨rfl, hd⟩
  | some mid =>
    dsimp only
    cases hc : crossingFill ord book mid with
    | some q =>
      obtain ⟨p, sz, sl, sp⟩ := q
      dsimp only
      constructor
      · exact congrArg some (createFill_data_eq cfg ord _ _ _ _ o₁ o₂)
      · rw [createFill_draws, createFill_draws]
        exact hd
    | none =>
      cases trade with
      | none => exact ⟨rfl, hd⟩
      | some t =>
        dsimp only
        by_cases hw : tradeCrossesLimit ord t
        · rw [if_pos hw, if_pos hw]
          have hhead : o₁.draws.headD 0 = o₂.draws.headD 0 := by rw [hd]
          have htail : o₁.draws.tail = o₂.draws.tail := by rw [hd]
          simp only [nextDraw, hhead]
          by_cases hp : o₂.draws.headD 0 < cfg.fillProbability
          · rw [if_pos hp, if_pos hp]
            constructor
            · simp only [Option.map_some]
              exact congrArg some (createFill_data_eq cfg ord _ _ _ _ _ _)
            · rw [createFill_draws, createFill_draws]
              simpa using htail
          · rw [if_neg hp, if_neg hp]
            exact ⟨rfl, by simpa using htail⟩
        · rw [if_neg hw, if_neg hw]
          exact ⟨rfl, hd⟩

theorem attemptFill_sync (cfg : Config) (ord : OrderIntent) (book : PM.OrderBook)
    (trade : Option TradeRecord) (o₁ o₂ : Oracle) (hd : o₁.draws = o₂.draws) :
    (attemptFill cfg ord book trade o₁).1.map fillData
      = (attemptFill cfg ord book trade o₂).1.map fillData ∧
    (attemptFill cfg ord book trade o₁).2.draws
      = (attemptFill cfg ord book trade o₂).2.draws := by
  unfold attemptFill
  cases ord.type
  · exact fillLimitOrder_sync cfg ord book trade o₁ o₂ hd
  · exact fillMarketOrder_sync cfg ord book o₁ o₂ hd

theorem processOrder_sync (cfg : Config) (tokenId : String) (book : PM.OrderBook)
    (trade : Option TradeRecord) (orders : List OrderIntent)
    (fills₁ fills₂ : List Fill) (o₁ o₂ : Oracle) (ord : OrderIntent)
    (hf : fills₁.map fillData = fills₂.map fillData) (hd : o₁.draws = o₂.draws) :
    (processOrder cfg tokenId book trade (orders, fills₁, o₁) ord).1
      = (processOrder cfg tokenId book trade (orders, fills₂, o₂) ord).1 ∧
    (processOrder cfg tokenId book trade (orders, fills₁, o₁) ord).2.1.map fillData
      = (processOrder cfg tokenId book trade (orders, fills₂, o₂) ord).2.1.map fillData ∧
    (processOrder cfg tokenId book trade (orders, fills₁, o₁) ord).2.2.draws
      = (processOrder cfg tokenId book trade (orders, fills₂, o₂) ord).2.2.draws := by
  obtain ⟨hmap, hdraws⟩ := attemptFill_sync cfg ord book trade o₁ o₂ hd
  unfold processOrder
  by_cases ht : ord.tokenId = tokenId
  · simp only [ht, bne_self_eq_false, Bool.false_eq_true, if_false]
    cases h₁ : attemptFill cfg ord book trade o₁ with
    | mk f₁ o₁' =>
      cases h₂ : attemptFill cfg ord book trade o₂ with
      | mk f₂ o₂' =>
        rw [h₁, h₂] at hmap hdraws
        cases f₁ with
        | none =>
          cases f₂ with
          | none => exact ⟨rfl, hf, hdraws⟩
          | some f => simp at hmap
        | some f₁ =>
          cases f₂ with
          | none => simp at hmap
          | some f₂ =>
            have hdata : fillData f₁ = fillData f₂ := by simpa using hmap
            have hsize : f₁.size = f₂.size :=
              congrArg (fun t => t.2.2.2.2.1) hdata
            simp only [hsize]
            by_cases hrem : ord.size - f₂.size ≤ 0
            · rw [if_pos hrem, if_pos hrem]
              refine ⟨rfl, ?_, hdraws⟩
              simp [hf, hdata]
            · rw [if_neg hrem, if_neg hrem]
              refine ⟨rfl, ?_, hdraws⟩
              simp [hf, hdata]
  · have : (ord.tokenId != tokenId) = true := by simpa using ht
    simp only [this, if_true]
    exact ⟨by trivial, hf, hd⟩

theorem foldOrders_sync (cfg : Config) (tokenId : String) (book : PM.OrderBook)
    (trade : Option TradeRecord) (pending : List OrderIntent) :
    ∀ (orders : List OrderIntent) (fills₁ fills₂ : List Fill) (o₁ o₂ : Oracle),
      fills₁.map fillData = fills₂.map fillData → o₁.draws = o₂.draws →
      (pending.foldl (processOrder cfg tokenId book trade) (orders, fills₁, o₁)).1
        = (pending.foldl (processOrder cfg tokenId book trade) (orders, fills₂, o₂)).1 ∧
      (pending.foldl (processOrder cfg tokenId book trade) (orders, fills₁, o₁)).2.1.map fillData
        = (pending.foldl (processOrder cfg tokenId book trade) (orders, fills₂, o₂)).2.1.map fillData ∧
      (pending.foldl (processOrder cfg tokenId book trade) (orders, fills₁, o₁)).2.2.draws
        = (pending.foldl (processOrder cfg tokenId book trade) (orders, fills₂, o₂)).2.2.draws := by
  induction pending with
  | nil => intro orders fills₁ fills₂ o₁ o₂ hf hd; exact ⟨rfl, hf, hd⟩
  | cons ord rest ih =>
    intro orders fills₁ fills₂ o₁ o₂ hf hd
    rw [List.foldl_cons, List.foldl_cons]
    obtain ⟨ho, hfl, hdr⟩ :=
      processOrder_sync cfg tokenId book trade orders fills₁ fills₂ o₁ o₂ ord hf hd
    cases hp₁ : processOrder cfg tokenId book trade (orders, fills₁, o₁) ord with
    | mk or₁ q₁ =>
      cases hp₂ : processOrder cfg tokenId book trade (orders, fills₂, o₂) ord with
      | mk or₂ q₂ =>
        rw [hp₁, hp₂] at ho hfl hdr
        obtain ⟨nf₁, oo₁⟩ := q₁
        obtain ⟨nf₂, oo₂⟩ := q₂
        simp only at ho hfl hdr
        subst ho
        exact ih or₁ nf₁ nf₂ oo₁ oo₂ hfl hdr

theorem processMarketUpdate_sync (cfg : Config) (tokenId : String)
    (book : PM.OrderBook) (trade : Option TradeRecord)
    (s₁ s₂ : SimState) (o₁ o₂ : Oracle)
    (ho : s₁.openOrders = s₂.openOrders)
    (hf : s₁.fills.map fillData = s₂.fills.map fillData)
    (hd : o₁.draws = o₂.draws) :
    (processMarketUpdate cfg s₁ tokenId book trade o₁).1.openOrders
      = (processMarketUpdate cfg s₂ tokenId book trade o₂).1.openOrders ∧
    (processMarketUpdate cfg s₁ tokenId book trade o₁).1.fills.map fillData
      = (processMarketUpdate cfg s₂ tokenId book trade o₂).1.fills.map fillData ∧
    (processMarketUpdate cfg s₁ tokenId book trade o₁).2.2.draws
      = (processMarketUpdate cfg s₂ tokenId book trade o₂).2.2.draws := by
  obtain ⟨ho', hfl, hdr⟩ :=
    foldOrders_sync cfg tokenId book trade s₁.openOrders [] [] [] o₁ o₂ rfl hd
  unfold processMarketUpdate
  rw [← ho]
  refine ⟨by simpa using ho', ?_, by simpa using hdr⟩
  simp only [List.map_append, hf]
  simpa using hfl

/-- C2: the paper execution simulator is deterministic.  Two instances with
the same configuration, fed the identical ordered sequence of `placeOrder`,
`cancelOrder` and `processMarketUpdate` calls and the identical stream of
passive-fill probability draws, produce identical fill sequences — the same
order ids, sides, prices, sizes, slippages, spreads and fees in the same
order — irrespective of the ambient `randomUUID`/`Date` oracles, which only
affect fill ids and timestamps. -/
theorem runEvents_deterministic (cfg : Config) (events : List Event)
    (draws : List ℚ) (uuids₁ uuids₂ : List String) (times₁ times₂ : List ℤ) :
    ((runEvents cfg events ⟨draws, uuids₁, times₁⟩).1.fills.map fillData)
      = ((runEvents cfg events ⟨draws, uuids₂, times₂⟩).1.fills.map fillData) := by
  unfold runEvents
  suffices h : ∀ (evs : List Event) (s₁ s₂ : SimState) (o₁ o₂ : Oracle),
      s₁.openOrders = s₂.openOrders →
      s₁.fills.map fillData = s₂.fills.map fillData →
      o₁.draws = o₂.draws →
      (evs.foldl (applyEvent cfg) (s₁, o₁)).1.openOrders
        = (evs.foldl (applyEvent cfg) (s₂, o₂)).1.openOrders ∧
      (evs.foldl (applyEvent cfg) (s₁, o₁)).1.fills.map fillData
        = (evs.foldl (applyEvent cfg) (s₂, o₂)).1.fills.map fillData ∧
      (evs.foldl (applyEvent cfg) (s₁, o₁)).2.draws
        = (evs.foldl (applyEvent cfg) (s₂, o₂)).2.draws by
    exact (h events ⟨[], []⟩ ⟨[], []⟩ ⟨draws, uuids₁, times₁⟩
      ⟨draws, uuids₂, times₂⟩ rfl rfl rfl).2.1
  intro evs
  induction evs with
  | nil => intro s₁ s₂ o₁ o₂ ho hf hd; exact ⟨ho, hf, hd⟩
  | cons e rest ih =>
    intro s₁ s₂ o₁ o₂ ho hf hd
    rw [List.foldl_cons, List.foldl_cons]
    cases e with
    | place i =>
      refine ih _ _ _ _ ?_ hf hd
      simp [applyEvent, placeOrder, ho]
    | cancel oid =>
      refine ih _ _ _ _ ?_ hf hd
      simp [applyEvent, cancelOrder, ho]
    | update tid b t =>
      obtain ⟨ho', hfl, hdr⟩ :=
        processMarketUpdate_sync cfg tid b t s₁ s₂ o₁ o₂ ho hf hd
      exact ih (processMarketUpdate cfg s₁ tid b t o₁).1
        (processMarketUpdate cfg s₂ tid b t o₂).1
        (processMarketUpdate cfg s₁ tid b t o₁).2.2
        (processMarketUpdate cfg s₂ tid b t o₂).2.2 ho' hfl hdr

end Exec

namespace Exec

/-- The claim-side crossing test: buy limit at or above the best ask, or sell
limit at or below the best bid, with the relevant opposing side non-empty.
This mirrors the conditions guarding the crossing branch of
`fillLimitOrder`. -/
def crossesSpread (order : OrderIntent) (book : PM.OrderBook) : Bool :=
  match order.side with
  | Side.buy =>
    match book.asks with
    | a :: _ => a.price ≤ order.price
    | [] => false
  | Side.sell =>
    match book.bids with
    | b :: _ => order.price ≤ b.price
    | [] => false

/-- Best level on the side opposing the order. -/
def bestOpposing (order : OrderIntent) (book : PM.OrderBook) : Option PriceLevel :=
  match order.side with
  | Side.buy => book.asks.head?
  | Side.sell => book.bids.head?

theorem createFill_price (cfg : Config) (ord : OrderIntent)
    (p sz sl sp : ℚ) (o : Oracle) : (createFill cfg ord p sz sl sp o).1.price = p := rfl

theorem createFill_size (cfg : Config) (ord : OrderIntent)
    (p sz sl sp : ℚ) (o : Oracle) : (createFill cfg ord p sz sl sp o).1.size = sz := rfl

theorem createFill_slippage (cfg : Config) (ord : OrderIntent)
    (p sz sl sp : ℚ) (o : Oracle) :
    (createFill cfg ord p sz sl sp o).1.slippage = |sl| := rfl

theorem createFill_spreadPaid (cfg : Config) (ord : OrderIntent)
    (p sz sl sp : ℚ) (o : Oracle) :
    (createFill cfg ord p sz sl sp o).1.spreadPaid = |sp| := rfl

theorem createFill_fee (cfg : Config) (ord : OrderIntent)
    (p sz sl sp : ℚ) (o : Oracle) :
    (createFill cfg ord p sz sl sp o).1.fee = p * sz * cfg.feeRate := rfl

theorem crossingFill_of_crossesSpread (order : OrderIntent) (book : PM.OrderBook)
    (mid : ℚ) (h : crossesSpread order book = true) :
    ∃ lvl, bestOpposing order book = some lvl ∧
      crossingFill order book mid
        = some (lvl.price, min order.size lvl.size,
            (match order.side with
             | Side.buy => lvl.price - mid
             | Side.sell => mid - lvl.price),
            (match order.side with
             | Side.buy => lvl.price - mid
             | Side.sell => mid - lvl.price)) := by
  unfold crossesSpread at h
  unfold crossingFill bestOpposing
  cases hs : order.side with
  | buy =>
    simp only [hs] at h ⊢
    cases ha : book.asks with
    | nil => simp [ha] at h
    | cons a rest =>
      simp only [ha] at h ⊢
      refine ⟨a, rfl, ?_⟩
      rw [if_pos (by simpa using h)]
  | sell =>
    simp only [hs] at h ⊢
    cases hb : book.bids with
    | nil => simp [hb] at h
    | cons b rest =>
      simp only [hb] at h ⊢
      refine ⟨b, rfl, ?_⟩
      rw [if_pos (by simpa using h)]

theorem crossingFill_of_not_crossesSpread (order : OrderIntent)
    (book : PM.OrderBook) (mid : ℚ) (h : crossesSpread order book = false) :
    crossingFill order book mid = none := by
  unfold crossesSpread at h
  unfold crossingFill
  cases hs : order.side with
  | buy =>
    simp only [hs] at h ⊢
    cases ha : book.asks with
    | nil => rfl
    | cons a rest =>
      simp only [ha] at h ⊢
      rw [if_neg (by simpa using h)]
  | sell =>
    simp only [hs] at h ⊢
    cases hb : book.bids with
    | nil => rfl
    | cons b rest =>
      simp only [hb] at h ⊢
      rw [if_neg (by simpa using h)]

/-- C5 (amended): a limit order that crosses the spread fills immediately at
the best opposing price for `min(remaining, best level size)` — provided a
mid price exists, i.e. additionally the order's own side of the book is
non-empty; `fillLimitOrder` returns no fill at all when either side is empty,
even for a crossing order. -/
theorem attemptFill_crossing_limit (cfg : Config) (order : OrderIntent)
    (book : PM.OrderBook) (trade : Option TradeRecord) (o : Oracle)
    (htype : order.type = OrderType.limit)
    (hbid : book.bids ≠ []) (hask : book.asks ≠ [])
    (hcross : crossesSpread order book = true) :
    ∃ f o' lvl, attemptFill cfg order book trade o = (some f, o') ∧
      bestOpposing order book = some lvl ∧
      f.price = lvl.price ∧ f.size = min order.size lvl.size := by
  have hmid : ∃ m, calculateMidPrice book = some m := by
    unfold calculateMidPrice
    cases hb : book.bids with
    | nil => exact absurd hb hbid
    | cons b rb =>
      cases ha : book.asks with
      | nil => exact absurd ha hask
      | cons a ra => exact ⟨(b.price + a.price) / 2, rfl⟩
  obtain ⟨m, hm⟩ := hmid
  obtain ⟨lvl, hlvl, hcf⟩ := crossingFill_of_crossesSpread order book m hcross
  unfold attemptFill
  rw [htype]
  unfold fillLimitOrder
  rw [hm]
  dsimp only
  rw [hcf]
  exact ⟨_, _, lvl, rfl, hlvl,
    createFill_price cfg order _ _ _ _ o, createFill_size cfg order _ _ _ _ o⟩

/-- Configuration used by the concrete execution-simulator examples:
2% fee rate, passive-fill probability one half. -/
def exCfg : Config := ⟨1/50, 1/2⟩

/-- Oracle with empty streams (defaults: draw 0, uuid `""`, time 0). -/
def emptyOracle : Oracle := ⟨[], [], []⟩

/-- A buy limit at `0.6` — crossing the best ask `0.51`. -/
def crossingBuyOrder : OrderIntent := ⟨"o1", "t", Side.buy, 3/5, 10, OrderType.limit, 0⟩

/-- A book with an ask side but an empty bid side, so no mid price exists. -/
def askOnlyBook : PM.OrderBook := ⟨"t", [], [⟨51/100, 100⟩], 0⟩

/-- Counterexample to C5 as stated: the buy limit at `0.6` crosses the best
ask `0.51` and the opposing (ask) side is non-empty, yet
`processMarketUpdate` produces no fill, because the empty bid side leaves
`calculateMidPrice` at `null` and `fillLimitOrder` bails out before the
crossing check. -/
theorem attemptFill_crossing_limit_counterexample :
    crossesSpread crossingBuyOrder askOnlyBook = true ∧
    askOnlyBook.asks ≠ [] ∧
    (processMarketUpdate exCfg ⟨[crossingBuyOrder], []⟩ "t" askOnlyBook none
        emptyOracle).2.1 = [] := by
  refine ⟨by norm_num [crossesSpread, crossingBuyOrder, askOnlyBook], by simp [askOnlyBook], ?_⟩
  norm_num [processMarketUpdate, processOrder, attemptFill, fillLimitOrder,
    calculateMidPrice, exCfg, emptyOracle, crossingBuyOrder, askOnlyBook]

/-- A two-sided book: best bid `0.5`, best ask `0.51`. -/
def twoSidedBook : PM.OrderBook := ⟨"t", [⟨1/2, 100⟩], [⟨51/100, 150⟩], 0⟩

/-- A buy limit at `0.52` against best ask `0.51`. -/
def buy52Order : OrderIntent := ⟨"o2", "t", Side.buy, 13/25, 50, OrderType.limit, 0⟩

/-- Witness for the amended C5, at the spec's own example: a buy limit `0.52`
against best ask `0.51` (both sides non-empty) fills at the best opposing
price. -/
theorem attemptFill_crossing_limit_witness :
    buy52Order.type = OrderType.limit ∧
    twoSidedBook.bids ≠ [] ∧ twoSidedBook.asks ≠ [] ∧
    crossesSpread buy52Order twoSidedBook = true ∧
    ∃ f o' lvl, attemptFill exCfg buy52Order twoSidedBook none emptyOracle = (some f, o') ∧
      bestOpposing buy52Order twoSidedBook = some lvl ∧
      f.price = lvl.price ∧ f.size = min buy52Order.size lvl.size :=
  ⟨rfl, by simp [twoSidedBook], by simp [twoSidedBook],
    by norm_num [crossesSpread, buy52Order, twoSidedBook],
    attemptFill_crossing_limit exCfg buy52Order twoSidedBook none emptyOracle rfl
      (by simp [twoSidedBook]) (by simp [twoSidedBook])
      (by norm_num [crossesSpread, buy52Order, twoSidedBook])⟩

end Exec

namespace Exec

/-- C6: a passive (non-crossing) limit order fills only when a trade print at
or through the limit is supplied and the probability draw succeeds; a passive
fill is all-or-nothing at the limit price — the full remaining size in one
fill — with zero spread paid and slippage `|limit − mid|`; with no trade, or
a trade that has not crossed the limit, no fill occurs and no draw is
consumed. -/
theorem fillLimitOrder_passive (cfg : Config) (order : OrderIntent)
    (book : PM.OrderBook) (trade : Option TradeRecord) (o : Oracle)
    (hncross : crossesSpread order book = false) :
    (∀ f o', fillLimitOrder cfg order book trade o = (some f, o') →
       ∃ t m, trade = some t ∧ calculateMidPrice book = some m ∧
         tradeCrossesLimit order t = true ∧
         o.draws.headD 0 < cfg.fillProbability ∧
         f.price = order.price ∧ f.size = order.size ∧
         f.spreadPaid = 0 ∧ f.slippage = |order.price - m|) ∧
    ((trade = none ∨ ∃ t, trade = some t ∧ tradeCrossesLimit order t = false) →
       fillLimitOrder cfg order book trade o = (none, o)) := by
  unfold fillLimitOrder
  cases hm : calculateMidPrice book with
  | none => exact ⟨fun f o' hf => by simp at hf, fun _ => rfl⟩
  | some m =>
    dsimp only
    rw [crossingFill_of_not_crossesSpread order book m hncross]
    cases trade with
    | none => exact ⟨fun f o' hf => by simp at hf, fun _ => rfl⟩
    | some t =>
      dsimp only
      by_cases hw : tradeCrossesLimit order t
      · rw [if_pos hw]
        constructor
        · intro f o' hf
          by_cases hp : (nextDraw o).1 < cfg.fillProbability
          · rw [if_pos hp] at hf
            rw [Prod.mk.injEq, Option.some.injEq] at hf
            obtain ⟨hf1, hf2⟩ := hf
            subst hf1
            refine ⟨t, m, rfl, rfl, hw, by simpa [nextDraw] using hp,
              createFill_price cfg order _ _ _ _ _,
              createFill_size cfg order _ _ _ _ _, ?_, ?_⟩
            · rw [createFill_spreadPaid]
              exact abs_zero
            · rw [createFill_slippage]
              cases order.side with
              | buy => rfl
              | sell => exact abs_sub_comm m order.price
          · rw [if_neg hp] at hf
            simp at hf
        · rintro (h | ⟨t', ht', hw'⟩)
          · simp at h
          · rw [Option.some.injEq] at ht'
            rw [← ht'] at hw'
            rw [hw] at hw'
            simp at hw'
      · rw [if_neg hw]
        refine ⟨fun f o' hf => by simp at hf, fun _ => rfl⟩

end Exec

namespace Exec

/-- A buy limit at `0.45`, resting below the best ask `0.5`. -/
def passiveBuyOrder : OrderIntent := ⟨"o3", "t", Side.buy, 45/100, 10, OrderType.limit, 0⟩

/-- Book for the passive-fill example: best bid `0.44`, best ask `0.5`. -/
def passiveBook : PM.OrderBook := ⟨"t", [⟨11/25, 5⟩], [⟨1/2, 5⟩], 0⟩

/-- A trade print at `0.4`, through the `0.45` buy limit. -/
def passiveTrade : TradeRecord := ⟨"t", 2/5, 1, Side.sell, 0⟩

/-- Oracle whose single probability draw `0` succeeds against any positive
fill probability. -/
def drawOracle : Oracle := ⟨[0], [], []⟩

/-- The fill produced by the passive example: full size 10 at the limit price
`0.45`, slippage `|0.45 − 0.47| = 0.02`, zero spread, fee `0.09`. -/
def passiveFillResult : Fill := ⟨"", "o3", "t", Side.buy, 45/100, 10, 1/50, 0, 9/100, 0⟩

/-- Witness for the passive-fill characterisation: the concrete passive buy
order fills all-or-nothing at its limit with zero spread paid. -/
theorem fillLimitOrder_passive_witness :
    ∃ t m, (some passiveTrade) = some t ∧ calculateMidPrice passiveBook = some m ∧
      tradeCrossesLimit passiveBuyOrder t = true ∧
      drawOracle.draws.headD 0 < exCfg.fillProbability ∧
      passiveFillResult.price = passiveBuyOrder.price ∧
      passiveFillResult.size = passiveBuyOrder.size ∧
      passiveFillResult.spreadPaid = 0 ∧
      passiveFillResult.slippage = |passiveBuyOrder.price - m| :=
  (fillLimitOrder_passive exCfg passiveBuyOrder passiveBook (some passiveTrade)
      drawOracle (by norm_num [crossesSpread, passiveBuyOrder, passiveBook])).1
    passiveFillResult emptyOracle
    (by norm_num [fillLimitOrder, calculateMidPrice, crossingFill,
      tradeCrossesLimit, nextDraw, createFill, nextUuid, nextTime, exCfg,
      passiveBuyOrder, passiveBook, passiveTrade, drawOracle, passiveFillResult,
      emptyOracle])

/-- C10: a market order fills even when no mid price exists.  A market buy
against a book with a non-empty ask side but empty bid side (so
`calculateMidPrice` is `null`) fills at the best ask for
`min(remaining, best-ask size)` with slippage and spread-paid exactly `0`;
symmetrically for a market sell against an empty ask side. -/
theorem fillMarketOrder_no_mid (cfg : Config) (order : OrderIntent)
    (book : PM.OrderBook) (o : Oracle) :
    (order.side = Side.buy → book.bids = [] → ∀ a rest, book.asks = a :: rest →
      calculateMidPrice book = none ∧
      ∃ f o', fillMarketOrder cfg order book o = (some f, o') ∧
        f.price = a.price ∧ f.size = min order.size a.size ∧
        f.slippage = 0 ∧ f.spreadPaid = 0) ∧
    (order.side = Side.sell → book.asks = [] → ∀ b rest, book.bids = b :: rest →
      calculateMidPrice book = none ∧
      ∃ f o', fillMarketOrder cfg order book o = (some f, o') ∧
        f.price = b.price ∧ f.size = min order.size b.size ∧
        f.slippage = 0 ∧ f.spreadPaid = 0) := by
  constructor
  · intro hs hb a rest ha
    have hm : calculateMidPrice book = none := by
      unfold calculateMidPrice
      rw [hb, ha]
    refine ⟨hm, ?_⟩
    unfold fillMarketOrder
    rw [hs, ha, hm]
    dsimp only
    refine ⟨_, _, rfl, createFill_price cfg order _ _ _ _ o,
      createFill_size cfg order _ _ _ _ o, ?_, ?_⟩
    · rw [createFill_slippage]
      exact abs_zero
    · rw [createFill_spreadPaid]
      exact abs_zero
  · intro hs ha b rest hb
    have hm : calculateMidPrice book = none := by
      unfold calculateMidPrice
      rw [hb, ha]
    refine ⟨hm, ?_⟩
    unfold fillMarketOrder
    rw [hs, hb, hm]
    dsimp only
    refine ⟨_, _, rfl, createFill_price cfg order _ _ _ _ o,
      createFill_size cfg order _ _ _ _ o, ?_, ?_⟩
    · rw [createFill_slippage]
      exact abs_zero
    · rw [createFill_spreadPaid]
      exact abs_zero

/-- A market buy for size 50 (the stored limit price of a market order is
unused). -/
def marketBuyOrder : OrderIntent := ⟨"o4", "t", Side.buy, 0, 50, OrderType.market, 0⟩

/-- Witness for the no-mid market fill: a market buy of 50 against the
ask-only book fills at `0.51` for size 50 with zero slippage and spread. -/
theorem fillMarketOrder_no_mid_witness :
    marketBuyOrder.side = Side.buy ∧ askOnlyBook.bids = [] ∧
    askOnlyBook.asks = ⟨51/100, 100⟩ :: [] ∧
    (calculateMidPrice askOnlyBook = none ∧
      ∃ f o', fillMarketOrder exCfg marketBuyOrder askOnlyBook emptyOracle = (some f, o') ∧
        f.price = (⟨51/100, 100⟩ : PriceLevel).price ∧
        f.size = min marketBuyOrder.size (⟨51/100, 100⟩ : PriceLevel).size ∧
        f.slippage = 0 ∧ f.spreadPaid = 0) :=
  ⟨rfl, rfl, rfl,
    (fillMarketOrder_no_mid exCfg marketBuyOrder askOnlyBook emptyOracle).1
      rfl rfl ⟨51/100, 100⟩ [] rfl⟩

end Exec

/-- JavaScript `Map.get` on a string-keyed association list. -/
def assocGet {β : Type} (m : List (String × β)) (k : String) : Option β :=
  (m.find? (fun e => e.1 == k)).map (fun e => e.2)

/-- JavaScript `Map.set` on a string-keyed association list: overwrite in
place, or append in insertion order. -/
def assocSet {β : Type} (m : List (String × β)) (k : String) (v : β) :
    List (String × β) :=
  if m.any (fun e => e.1 == k) then
    m.map (fun e => if e.1 == k then (k, v) else e)
  else
    m ++ [(k, v)]

namespace Risk

/-- Embeds `Position` of `@pm-bot/core`: signed size (positive = long). -/
structure Position where
  marketId : String
  tokenId : String
  size : ℚ
  avgPrice : ℚ
  realizedPnl : ℚ
  unrealizedPnl : ℚ
  lastUpdate : ℤ
deriving DecidableEq, Repr

/-- The fields of a `Signal` (`@pm-bot/signals`) read by the risk gate. -/
structure Signal where
  id : String
  tokenId : String
  marketId : Option String
  side : Side
  limitPrice : ℚ
  size : ℚ
deriving DecidableEq, Repr

/-- The configuration values of `RiskManager` (from the global config). -/
structure RiskConfig where
  MAX_DAILY_LOSS : ℚ
  MAX_POSITION_PER_MARKET : ℚ
  MAX_GROSS_EXPOSURE : ℚ
  MAX_ORDER_RATE_PER_SECOND : ℕ
deriving DecidableEq, Repr

/-- The `RiskGateConfig` fields used by `gateSignal` itself. -/
structure RiskGateConfig where
  maxNetExposure : ℚ
  staleFeedMs : ℤ
deriving DecidableEq, Repr

/-- The mutable counters of a `RiskManager` instance touched by
`gateSignal`. -/
structure RiskManagerState where
  dailyPnl : ℚ
  orderCount : ℕ
  orderWindowStart : ℤ
deriving DecidableEq, Repr

/-- Embeds `RiskManager.checkKillSwitch`: presence of the external
`kill-switch.flag` file, passed in as a boolean signal. -/
def checkKillSwitch (killSwitchFlagExists : Bool) : Bool :=
  killSwitchFlagExists

/-- Embeds `RiskManager.checkDailyLoss` (balance is accepted but unused by the
source): fails when the daily PnL is negative with magnitude at or above the
limit.  Returns the `allowed` flag. -/
def checkDailyLoss (cfg : RiskConfig) (s : RiskManagerState) (balance : ℚ) : Bool :=
  if s.dailyPnl < 0 ∧ cfg.MAX_DAILY_LOSS ≤ |s.dailyPnl| then false else true

/-- Embeds `RiskManager.checkPositionLimit`: fails when
`|current + proposed| > MAX_POSITION_PER_MARKET` (market and token ids feed
only the reason string). -/
def checkPositionLimit (cfg : RiskConfig) (marketId tokenId : String)
    (currentPosition : Option Position) (newSize : ℚ) : Bool :=
  if cfg.MAX_POSITION_PER_MARKET < |(currentPosition.map (fun p => p.size)).getD 0 + newSize|
  then false else true

/-- Embeds `RiskManager.checkGrossExposure`: fails when `Σ|size| >
MAX_GROSS_EXPOSURE`. -/
def checkGrossExposure (cfg : RiskConfig) (positions : List Position) : Bool :=
  if cfg.MAX_GROSS_EXPOSURE < positions.foldl (fun acc p => acc + |p.size|) 0
  then false else true

/-- Embeds `RiskManager.checkOrderRate`: reset the 1-second window when it has
elapsed, fail at the configured rate, otherwise consume a token by
incrementing the counter.  Returns the `allowed` flag and the updated
counters. -/
def checkOrderRate (cfg : RiskConfig) (now : ℤ) (s : RiskManagerState) :
    Bool × RiskManagerState :=
  let s1 := if 1000 < now - s.orderWindowStart then
      { s with orderCount := 0, orderWindowStart := now } else s
  if cfg.MAX_ORDER_RATE_PER_SECOND ≤ s1.orderCount then (false, s1)
  else (true, { s1 with orderCount := s1.orderCount + 1 })

/-- Signed sum of position sizes (the `reduce` in `gateSignal`). -/
def netExposure (positions : List Position) : ℚ :=
  positions.foldl (fun acc p => acc + p.size) 0

/-- The inline stale-feed test of `gateSignal`:
`lastUpdate && Date.now() - lastUpdate > staleFeedMs`.  JavaScript
truthiness: a stored timestamp of `0` is falsy and never trips the check. -/
def staleFeedTripped (gcfg : RiskGateConfig) (now : ℤ) (lastUpdate : Option ℤ) : Bool :=
  match lastUpdate with
  | none => false
  | some t => if t ≠ 0 ∧ gcfg.staleFeedMs < now - t then true else false

/-- The reason tags pushed by `gateSignal`, one per check (the source
interpolates dynamic values into the reason strings; the tag identifies which
check's reason was pushed). -/
inductive GateReason where
  | killSwitch
  | dailyLoss
  | positionLimit
  | grossExposure
  | netExposure
  | orderRate
  | staleFeed
deriving DecidableEq, Repr

/-- The gate's output (`OrderIntent` of `@pm-bot/signals`): the signal, the
gated flag, and — only when gated — the reasons pushed so far. -/
structure OrderIntent where
  signal : Signal
  gated : Bool
  gateReasons : Option (List GateReason)
deriving DecidableEq, Repr

/-- Embeds `signal.marketId || 'unknown'` (an empty string is falsy in
JavaScript). -/
def marketIdOrUnknown (signal : Signal) : String :=
  match signal.marketId with
  | some m => if m = "" then "unknown" else m
  | none => "unknown"

/-- The key `${signal.marketId || 'unknown'}-${signal.tokenId}` under which
`gateSignal` looks up the current position. -/
def positionKey (signal : Signal) : String :=
  marketIdOrUnknown signal ++ "-" ++ signal.tokenId

/-- Embeds `RiskGate.gateSignal` (risk-gate.ts lines 205–273): the seven checks in
their fixed order, returning at the first failure with that check's reason
pushed; only `checkOrderRate` touches the mutable counters. -/
def gateSignal (rcfg : RiskConfig) (gcfg : RiskGateConfig) (killSwitch : Bool)
    (now : ℤ) (lastPriceUpdate : List (String × ℤ)) (s : RiskManagerState)
    (signal : Signal) (currentPositions : List (String × Position))
    (balance : ℚ) : OrderIntent × RiskManagerState :=
  if checkKillSwitch killSwitch then
    (⟨signal, true, some [GateReason.killSwitch]⟩, s)
  else if checkDailyLoss rcfg s balance = false then
    (⟨signal, true, some [GateReason.dailyLoss]⟩, s)
  else if checkPositionLimit rcfg (marketIdOrUnknown signal) signal.tokenId
      (assocGet currentPositions (positionKey signal)) signal.size = false then
    (⟨signal, true, some [GateReason.positionLimit]⟩, s)
  else if checkGrossExposure rcfg (currentPositions.map (fun e => e.2)) = false then
    (⟨signal, true, some [GateReason.grossExposure]⟩, s)
  else if gcfg.maxNetExposure < |netExposure (currentPositions.map (fun e => e.2))| then
    (⟨signal, true, some [GateReason.netExposure]⟩, s)
  else
    let rateCheck := checkOrderRate rcfg now s
    if rateCheck.1 = false then
      (⟨signal, true, some [GateReason.orderRate]⟩, rateCheck.2)
    else if staleFeedTripped gcfg now (assocGet lastPriceUpdate signal.tokenId) then
      (⟨signal, true, some [GateReason.staleFeed]⟩, rateCheck.2)
    else
      (⟨signal, false, none⟩, rateCheck.2)

/-- The earliest failing check in the claimed fixed order — kill switch,
daily loss, position limit, gross exposure, net exposure, order rate, stale
feed — or `none` when every check passes.  Each test is the source's own
check function. -/
def firstFailure (rcfg : RiskConfig) (gcfg : RiskGateConfig) (killSwitch : Bool)
    (now : ℤ) (lastPriceUpdate : List (String × ℤ)) (s : RiskManagerState)
    (signal : Signal) (currentPositions : List (String × Position))
    (balance : ℚ) : Option GateReason :=
  if checkKillSwitch killSwitch then some GateReason.killSwitch
  else if checkDailyLoss rcfg s balance = false then some GateReason.dailyLoss
  else if checkPositionLimit rcfg (marketIdOrUnknown signal) signal.tokenId
      (assocGet currentPositions (positionKey signal)) signal.size = false then
    some GateReason.positionLimit
  else if checkGrossExposure rcfg (currentPositions.map (fun e => e.2)) = false then
    some GateReason.grossExposure
  else if gcfg.maxNetExposure < |netExposure (currentPositions.map (fun e => e.2))| then
    some GateReason.netExposure
  else if (checkOrderRate rcfg now s).1 = false then some GateReason.orderRate
  else if staleFeedTripped gcfg now (assocGet lastPriceUpdate signal.tokenId) then
    some GateReason.staleFeed
  else none

/-- C1: `gateSignal` evaluates its checks in the fixed order kill switch,
daily loss, position limit, gross exposure, net exposure, order rate, stale
feed, short-circuiting at the first failure: the decision is gated exactly
when some check fails; the reasons list is exactly the singleton reason of
the earliest failing check in that order; and the order-rate counter state is
returned untouched whenever one of the five earlier checks fails — it is
consumed (via `checkOrderRate`) only when all five earlier checks pass. -/
theorem gateSignal_fixed_order (rcfg : RiskConfig) (gcfg : RiskGateConfig)
    (killSwitch : Bool) (now : ℤ) (lastPriceUpdate : List (String × ℤ))
    (s : RiskManagerState) (signal : Signal)
    (currentPositions : List (String × Position)) (balance : ℚ) :
    ((gateSignal rcfg gcfg killSwitch now lastPriceUpdate s signal
        currentPositions balance).1.gated = true
      ↔ (firstFailure rcfg gcfg killSwitch now lastPriceUpdate s signal
          currentPositions balance).isSome = true) ∧
    (gateSignal rcfg gcfg killSwitch now lastPriceUpdate s signal
        currentPositions balance).1.gateReasons
      = (firstFailure rcfg gcfg killSwitch now lastPriceUpdate s signal
          currentPositions balance).map (fun g => [g]) ∧
    ((∃ g, firstFailure rcfg gcfg killSwitch now lastPriceUpdate s signal
          currentPositions balance = some g ∧
        g ≠ GateReason.orderRate ∧ g ≠ GateReason.staleFeed) →
      (gateSignal rcfg gcfg killSwitch now lastPriceUpdate s signal
        currentPositions balance).2 = s) ∧
    ((firstFailure rcfg gcfg killSwitch now lastPriceUpdate s signal
          currentPositions balance = none ∨
      firstFailure rcfg gcfg killSwitch now lastPriceUpdate s signal
          currentPositions balance = some GateReason.orderRate ∨
      firstFailure rcfg gcfg killSwitch now lastPriceUpdate s signal
          currentPositions balance = some GateReason.staleFeed) →
      (gateSignal rcfg gcfg killSwitch now lastPriceUpdate s signal
        currentPositions balance).2
        = (checkOrderRate rcfg now s).2) := by
  unfold gateSignal firstFailure
  split_ifs <;> simp_all

end Risk

namespace Risk

/-- Risk-manager config for the precedence example: `maxPositionPerToken`
1000, generous other limits. -/
def exRiskConfig : RiskConfig := ⟨500, 1000, 10000, 10⟩

/-- Gate config for the precedence example. -/
def exGateConfig : RiskGateConfig := ⟨5000, 60000⟩

/-- Counters in their initial state. -/
def exRiskState : RiskManagerState := ⟨0, 0, 0⟩

/-- A buy signal of size 200 on token `t` in market `m`. -/
def exSignal : Signal := ⟨"s1", "t", some "m", Side.buy, 1/2, 200⟩

/-- An existing long position of 900 on `m-t`. -/
def exPositions : List (String × Position) :=
  [("m-t", ⟨"m", "t", 900, 1/2, 0, 0, 0⟩)]

/-- Witness for the gate precedence theorem, at the spec's own example:
current position 900, proposed buy 200, `maxPositionPerToken` 1000 — the
kill-switch and daily-loss checks pass, the position-limit check is the
earliest failure, the reasons list is exactly its reason, and the order-rate
counters are returned untouched. -/
theorem gateSignal_fixed_order_witness :
    firstFailure exRiskConfig exGateConfig false 0 [] exRiskState exSignal
        exPositions 1000 = some GateReason.positionLimit ∧
    (gateSignal exRiskConfig exGateConfig false 0 [] exRiskState exSignal
        exPositions 1000).1.gated = true ∧
    (gateSignal exRiskConfig exGateConfig false 0 [] exRiskState exSignal
        exPositions 1000).1.gateReasons = some [GateReason.positionLimit] ∧
    (gateSignal exRiskConfig exGateConfig false 0 [] exRiskState exSignal
        exPositions 1000).2 = exRiskState := by
  have h := gateSignal_fixed_order exRiskConfig exGateConfig false 0 []
    exRiskState exSignal exPositions 1000
  have hff : firstFailure exRiskConfig exGateConfig false 0 [] exRiskState
      exSignal exPositions 1000 = some GateReason.positionLimit := by
    have hkey : assocGet exPositions (positionKey exSignal)
        = some (⟨"m", "t", 900, 1/2, 0, 0, 0⟩ : Position) := rfl
    unfold firstFailure
    rw [hkey]
    norm_num [checkKillSwitch, checkDailyLoss, checkPositionLimit,
      checkGrossExposure, exRiskConfig, exRiskState, exSignal]
  refine ⟨hff, ?_, ?_, ?_⟩
  · rw [h.1, hff]
    rfl
  · rw [h.2.1, hff]
    rfl
  · exact h.2.2.1 ⟨GateReason.positionLimit, hff, by simp, by simp⟩

/-- Embeds `kellyFraction` (core `math.ts` lines 56–68): zero when either amount is
non-positive, otherwise `clamp(p − (1−p)/b, 0, 1)` with
`b = winAmount/lossAmount`. -/
def kellyFraction (winProb winAmount lossAmount : ℚ) : ℚ :=
  if lossAmount ≤ 0 ∨ winAmount ≤ 0 then 0
  else
    let q := 1 - winProb
    let b := winAmount / lossAmount
    let kelly := winProb - q / b
    max 0 (min 1 kelly)

/-- Embeds `fixedFractionalSize` (core `math.ts` lines 70–79). -/
def fixedFractionalSize (accountBalance riskPerTrade stopLoss : ℚ) : ℚ :=
  if stopLoss ≤ 0 then 0 else accountBalance * riskPerTrade / |stopLoss|

/-- Embeds `RiskManager.calculatePositionSize` (risk-manager.ts lines 142–165):
Kelly sizing when win probability, win amount and loss amount are all
supplied (JavaScript truthiness: `Decimal` objects are always truthy, so
"supplied" means defined); else fixed-fractional when a stop loss is
supplied; else `min(signalSize, balance × 0.05)`.  `riskPerTrade` defaults
to `0.02` at the call site. -/
def calculatePositionSize (signalSize balance riskPerTrade : ℚ)
    (stopLoss winProb winAmount lossAmount : Option ℚ) : ℚ :=
  match winProb, winAmount, lossAmount with
  | some p, some wa, some la =>
    min signalSize (balance * kellyFraction p wa la * (1/4))
  | _, _, _ =>
    match stopLoss with
    | some sl => min signalSize (fixedFractionalSize balance riskPerTrade sl)
    | none => min signalSize (balance * (1/20))

/-- The Kelly-based size exactly as the claim words it:
`min(signalSize, balance × clamp(p − (1−p)/b, 0, 1) × 0.25)` with
`b = winAmount/lossAmount`, with no condition on the signs of the amounts. -/
def claimedKellySize (signalSize balance p wa la : ℚ) : ℚ :=
  min signalSize (balance * (max 0 (min 1 (p - (1 - p) / (wa / la)))) * (1/4))

/-- Counterexample to C9 as stated: with win probability 1, win amount `−2`
and loss amount 1 all supplied, the code's Kelly fraction is `0` (the guard
`winAmount ≤ 0` fires), giving size `0`, while the claim's clamped formula
gives `clamp(1 − 0/(−2), 0, 1) = 1` and size `min(1, 4 × 1 × 0.25) = 1`. -/
theorem calculatePositionSize_kelly_counterexample :
    calculatePositionSize 1 4 (1/50) none (some 1) (some (-2)) (some 1) = 0 ∧
    claimedKellySize 1 4 1 (-2) 1 = 1 ∧
    calculatePositionSize 1 4 (1/50) none (some 1) (some (-2)) (some 1)
      ≠ claimedKellySize 1 4 1 (-2) 1 := by
  norm_num [calculatePositionSize, kellyFraction, claimedKellySize]

/-- C9 (amended): when win probability, win amount and loss amount are all
supplied and both amounts are positive, `calculatePositionSize` returns
`min(signalSize, balance × clamp(p − (1−p)/b, 0, 1) × 0.25)` with
`b = winAmount/lossAmount`, never exceeding the signal size (when either
amount is non-positive the Kelly fraction is taken as 0 instead); when
neither Kelly inputs nor a stop loss are supplied, it returns
`min(signalSize, balance × 0.05)`. -/
theorem calculatePositionSize_kelly (signalSize balance riskPerTrade p wa la : ℚ)
    (hwa : 0 < wa) (hla : 0 < la) :
    calculatePositionSize signalSize balance riskPerTrade none
        (some p) (some wa) (some la)
      = claimedKellySize signalSize balance p wa la ∧
    calculatePositionSize signalSize balance riskPerTrade none
        (some p) (some wa) (some la) ≤ signalSize ∧
    (∀ sig2 bal2 rpt2 : ℚ,
      calculatePositionSize sig2 bal2 rpt2 none none none none
        = min sig2 (bal2 * (1/20))) := by
  refine ⟨?_, min_le_left _ _, fun sig2 bal2 rpt2 => rfl⟩
  unfold calculatePositionSize claimedKellySize kellyFraction
  dsimp only
  rw [if_neg]
  push_neg
  exact ⟨hla, hwa⟩

/-- Witness for the Kelly sizing: win probability `0.6`, win 2, loss 1,
balance 1000, signal size 100 — Kelly fraction `0.4`, quarter-Kelly size
`100`. -/
theorem calculatePositionSize_kelly_witness :
    (0 : ℚ) < 2 ∧ (0 : ℚ) < 1 ∧
    (calculatePositionSize 100 1000 (1/50) none (some (3/5)) (some 2) (some 1)
        = claimedKellySize 100 1000 (3/5) 2 1 ∧
      calculatePositionSize 100 1000 (1/50) none (some (3/5)) (some 2) (some 1) ≤ 100 ∧
      (∀ sig2 bal2 rpt2 : ℚ,
        calculatePositionSize sig2 bal2 rpt2 none none none none
          = min sig2 (bal2 * (1/20)))) :=
  ⟨by norm_num, by norm_num,
    calculatePositionSize_kelly 100 1000 (1/50) (3/5) 2 1 (by norm_num) (by norm_num)⟩

end Risk

namespace Feat

/-- Embeds `EMA` (core `math.ts` lines 3–27): smoothing factor `α = 2/(period+1)`
and the current value, `null` until seeded by the first update. -/
structure EMA where
  alpha : ℚ
  value : Option ℚ
deriving DecidableEq, Repr

/-- Embeds `new EMA(period)`. -/
def EMA.create (period : ℕ) : EMA :=
  ⟨2 / ((period : ℚ) + 1), none⟩

/-- Embeds `EMA.update`: seed with the first price, then
`α·price + (1−α)·value`; returns the new value and mutates the instance. -/
def EMA.update (e : EMA) (price : ℚ) : ℚ × EMA :=
  match e.value with
  | none => (price, { e with value := some price })
  | some v =>
    let nv := e.alpha * price + (1 - e.alpha) * v
    (nv, { e with value := some nv })

/-- The simple returns of `calculateVolatility`: `(p[i] − p[i−1])/p[i−1]`
for consecutive prices, skipping pairs whose left price is not positive. -/
def volatilityReturns (prices : List ℚ) : List ℚ :=
  (prices.zip prices.tail).filterMap
    (fun pr => if 0 < pr.1 then some ((pr.2 - pr.1) / pr.1) else none)

/-- The population variance computed by `calculateVolatility` (core `math.ts`
lines 29–54) before its final square root: `0` for fewer than two prices or
no usable returns, else `Σ(r − mean)² / n` over the returns of the WHOLE
price list (the JavaScript `reduce` from `0` is a left fold). -/
def volatilityVariance (prices : List ℚ) : ℚ :=
  if prices.length < 2 then 0
  else
    let returns := volatilityReturns prices
    if returns.length = 0 then 0
    else
      let mean := returns.foldl (fun acc r => acc + r) (0 : ℚ) / (returns.length : ℚ)
      (returns.foldl (fun acc r => acc + (r - mean) ^ 2) (0 : ℚ)) / (returns.length : ℚ)

/-- Embeds `calculateVolatility(prices, _window)`: the standard deviation of the
returns over the whole list.  The `_window` parameter is accepted and ignored
by the source.  `Decimal.sqrt` is embedded as the exact real square root (the
source's early `return 0` branches coincide with `√0`). -/
noncomputable def calculateVolatility (prices : List ℚ) (_window : ℕ) : ℝ :=
  Real.sqrt (volatilityVariance prices)

/-- The volatility the specification describes: the same standard deviation,
but taken over only the most recent `window` samples of the history. -/
noncomputable def windowedVolatility (prices : List ℚ) (window : ℕ) : ℝ :=
  Real.sqrt (volatilityVariance (prices.drop (prices.length - window)))

/-- Embeds `MarketStateStore.volWindow` (default 20). -/
def volWindow : ℕ := 20

/-- Embeds `MarketStateStore.emaPeriod` (default 20). -/
def emaPeriod : ℕ := 20

/-- Embeds `TradeTapeStore.maxTradesPerToken` (default 1000). -/
def maxTradesPerToken : ℕ := 1000

/-- Embeds `OrderBookStore` top-N level cap (default 20). -/
def topNLevels : ℕ := 20

/-- State of a `MarketStateStore` (market-state-store.ts): order books, trade
tapes, per-token EMA instances, and per-token price histories. -/
structure MarketStateStore where
  books : List (String × PM.OrderBook)
  trades : List (String × List TradeRecord)
  emas : List (String × EMA)
  priceHistory : List (String × List ℚ)
deriving DecidableEq, Repr

/-- Embeds `MarketStateStore.updateOrderBook` via `OrderBookStore.update`: store the
book trimmed to the top N levels per side. -/
def updateOrderBook (s : MarketStateStore) (tokenId : String)
    (book : PM.OrderBook) : MarketStateStore :=
  let trimmed : PM.OrderBook :=
    { book with bids := book.bids.take topNLevels
                asks := book.asks.take topNLevels }
  { s with books := assocSet s.books tokenId trimmed }

/-- Embeds `MarketStateStore.addTrade` (lines 121–133): append to the FIFO tape
(capacity 1000) and push the price onto the rolling history (capacity
2 × volWindow), shifting the oldest entry past capacity. -/
def addTrade (s : MarketStateStore) (trade : TradeRecord) : MarketStateStore :=
  let tape := (assocGet s.trades trade.tokenId).getD [] ++ [trade]
  let tape := if maxTradesPerToken < tape.length then tape.tail else tape
  let hist := (assocGet s.priceHistory trade.tokenId).getD [] ++ [trade.price]
  let hist := if volWindow * 2 < hist.length then hist.tail else hist
  { s with trades := assocSet s.trades trade.tokenId tape
           priceHistory := assocSet s.priceHistory trade.tokenId hist }

/-- Embeds `MarketStateStore.getTrades`: `slice(-limit)`, the most recent `limit`
trades. -/
def getTrades (s : MarketStateStore) (tokenId : String) (limit : ℕ) :
    List TradeRecord :=
  let tokenTrades := (assocGet s.trades tokenId).getD []
  tokenTrades.drop (tokenTrades.length - limit)

/-- Embeds `DerivedFeatures` (market-state-store.ts lines 15–24). -/
structure DerivedFeatures where
  midPrice : Option ℚ
  spread : Option ℚ
  spreadBps : Option ℚ
  bidDepth : ℚ
  askDepth : ℚ
  ema : Option ℚ
  ewmaVol : Option ℝ
  lastUpdate : ℤ

/-- Embeds `MarketStateStore.getDerivedFeatures` (lines 139–192).  The source
mutates the per-token EMA instance through `emaInstance.update` while
computing the `ema` field, so the embedding returns the features together
with the updated store state. -/
noncomputable def getDerivedFeatures (s : MarketStateStore) (tokenId : String)
    (now : ℤ) : DerivedFeatures × MarketStateStore :=
  match assocGet s.books tokenId with
  | none => (⟨none, none, none, 0, 0, none, none, now⟩, s)
  | some book =>
    let trades := getTrades s tokenId volWindow
    let midPrice := calculateMidPrice book
    let spread := calculateSpread book
    let spreadBps := match midPrice, spread with
      | some m, some sp => some (sp / m * 10000)
      | _, _ => none
    let bidDepth := book.bids.foldl (fun acc l => acc + l.size) 0
    let askDepth := book.asks.foldl (fun acc l => acc + l.size) 0
    let emaPair : Option ℚ × List (String × EMA) :=
      match trades.getLast? with
      | none => (none, s.emas)
      | some lastTrade =>
        let inst := (assocGet s.emas tokenId).getD (EMA.create emaPeriod)
        let upd := inst.update lastTrade.price
        (some upd.1, assocSet s.emas tokenId upd.2)
    let ewmaVol : Option ℝ :=
      match assocGet s.priceHistory tokenId with
      | some history =>
        if 2 ≤ history.length then some (calculateVolatility history volWindow)
        else none
      | none => none
    (⟨midPrice, spread, spreadBps, bidDepth, askDepth, emaPair.1, ewmaVol,
        book.timestamp⟩,
      { s with emas := emaPair.2 })

end Feat

namespace Feat

/-- A two-sided book for the feature-engine examples. -/
def volBook : PM.OrderBook := ⟨"t", [⟨1/2, 10⟩], [⟨51/100, 10⟩], 0⟩

/-- A retained price history of 21 samples — more than the volatility window
of 20 — whose single non-zero return lies just outside the most recent 20
samples. -/
def volHistory : List ℚ :=
  [1, 2, 2, 2, 2, 2, 2, 2, 2, 2, 2, 2, 2, 2, 2, 2, 2, 2, 2, 2, 2]

/-- Store holding the 21-sample history for token `t`. -/
def volStore : MarketStateStore := ⟨[("t", volBook)], [], [], [("t", volHistory)]⟩

theorem volHistory_variance : volatilityVariance volHistory = 19/400 := by
  norm_num [volatilityVariance, volatilityReturns, volHistory,
    List.filterMap_cons, List.foldl_cons, List.foldl_nil]

theorem volHistory_window_variance :
    volatilityVariance (volHistory.drop (volHistory.length - volWindow)) = 0 := by
  norm_num [volatilityVariance, volatilityReturns, volHistory, volWindow,
    List.filterMap_cons, List.foldl_cons, List.foldl_nil]

/-- Counterexample to C7 as stated: with 21 retained prices the code's
`ewmaVol` is the standard deviation over the whole history (positive here,
since the only non-zero return is the oldest), not over the most recent 20
samples (zero here) — `calculateVolatility` ignores its `_window`
parameter. -/
theorem getDerivedFeatures_ewmaVol_counterexample :
    volWindow < volHistory.length ∧
    (getDerivedFeatures volStore "t" 0).1.ewmaVol
      ≠ some (windowedVolatility volHistory volWindow) := by
  constructor
  · norm_num [volHistory, volWindow]
  · have hb : assocGet volStore.books "t" = some volBook := rfl
    have hh : assocGet volStore.priceHistory "t" = some volHistory := rfl
    have hlen : 2 ≤ volHistory.length := by norm_num [volHistory]
    have hmain : (getDerivedFeatures volStore "t" 0).1.ewmaVol
        = some (Real.sqrt ((19/400 : ℚ) : ℝ)) := by
      simp only [getDerivedFeatures, hb, hh]
      rw [if_pos hlen]
      unfold calculateVolatility
      rw [volHistory_variance]
    have hspec : windowedVolatility volHistory volWindow = 0 := by
      unfold windowedVolatility
      rw [volHistory_window_variance]
      norm_num [Real.sqrt_zero]
    rw [hmain, hspec]
    intro hcontra
    rw [Option.some.injEq] at hcontra
    have h1 : (0 : ℝ) < Real.sqrt ((19/400 : ℚ) : ℝ) :=
      Real.sqrt_pos.mpr (by norm_num)
    rw [hcontra] at h1
    exact lt_irrefl 0 h1

/-- C7 (amended): for a token with a book and at least two retained prices,
`ewmaVol` is the standard deviation of the simple returns over the ENTIRE
retained history (which holds up to 2 × window prices) — the window argument
of `calculateVolatility` is ignored, so the result is independent of it. -/
theorem getDerivedFeatures_ewmaVol_full_history (s : MarketStateStore)
    (tokenId : String) (now : ℤ) (book : PM.OrderBook) (hist : List ℚ)
    (hb : assocGet s.books tokenId = some book)
    (hh : assocGet s.priceHistory tokenId = some hist)
    (hlen : 2 ≤ hist.length) :
    (getDerivedFeatures s tokenId now).1.ewmaVol
      = some (Real.sqrt ((volatilityVariance hist : ℚ) : ℝ)) ∧
    ∀ w₁ w₂ : ℕ, calculateVolatility hist w₁ = calculateVolatility hist w₂ := by
  refine ⟨?_, fun w₁ w₂ => rfl⟩
  simp only [getDerivedFeatures, hb, hh]
  rw [if_pos hlen]
  rfl

/-- Store with the two-sample history `[1, 2]` for token `t`. -/
def smallVolStore : MarketStateStore := ⟨[("t", volBook)], [], [], [("t", [1, 2])]⟩

/-- Witness for the full-history volatility theorem at a two-sample
history. -/
theorem getDerivedFeatures_ewmaVol_full_history_witness :
    assocGet smallVolStore.books "t" = some volBook ∧
    assocGet smallVolStore.priceHistory "t" = some [1, 2] ∧
    2 ≤ ([1, 2] : List ℚ).length ∧
    ((getDerivedFeatures smallVolStore "t" 0).1.ewmaVol
        = some (Real.sqrt ((volatilityVariance [1, 2] : ℚ) : ℝ)) ∧
      ∀ w₁ w₂ : ℕ,
        calculateVolatility [1, 2] w₁ = calculateVolatility [1, 2] w₂) :=
  ⟨rfl, rfl, by norm_num,
    getDerivedFeatures_ewmaVol_full_history smallVolStore "t" 0 volBook [1, 2]
      rfl rfl (by norm_num)⟩

end Feat

namespace Feat

/-- A one-trade tape: latest (and only) trade price 2. -/
def emaTrades : List TradeRecord := [⟨"t", 2, 1, Side.buy, 0⟩]

/-- Store whose EMA instance for `t` already holds value 1 (α = 2/21, the
instance the store itself creates for period 20) while the latest trade
price is 2. -/
def emaStore : MarketStateStore :=
  ⟨[("t", volBook)], [("t", emaTrades)], [("t", ⟨2/21, some 1⟩)], []⟩

/-- Counterexample to C8 as stated: `getDerivedFeatures` is not read-only —
it advances the per-token EMA towards the latest trade price on every call.
On this store the first call changes the stored state, and a second
consecutive call (with no intervening updates) returns a different `ema`
value than the first. -/
theorem getDerivedFeatures_not_readonly :
    (getDerivedFeatures emaStore "t" 0).2 ≠ emaStore ∧
    (getDerivedFeatures emaStore "t" 0).1.ema = some (23/21) ∧
    (getDerivedFeatures (getDerivedFeatures emaStore "t" 0).2 "t" 0).1.ema
      = some (521/441) ∧
    (getDerivedFeatures emaStore "t" 0).1.ema
      ≠ (getDerivedFeatures (getDerivedFeatures emaStore "t" 0).2 "t" 0).1.ema := by
  have h1 : (getDerivedFeatures emaStore "t" 0).2
      = ⟨[("t", volBook)], [("t", emaTrades)], [("t", ⟨2/21, some (23/21)⟩)], []⟩ := by
    simp only [getDerivedFeatures]
    norm_num [assocGet, assocSet, getTrades, emaStore, emaTrades, EMA.update,
      volWindow, List.drop, List.getLast?]
  have h2 : (getDerivedFeatures emaStore "t" 0).1.ema = some (23/21) := by
    simp only [getDerivedFeatures]
    norm_num [assocGet, getTrades, emaStore, emaTrades, EMA.update,
      volWindow, List.drop, List.getLast?]
  have h3 : (getDerivedFeatures (getDerivedFeatures emaStore "t" 0).2 "t" 0).1.ema
      = some (521/441) := by
    rw [h1]
    simp only [getDerivedFeatures]
    norm_num [assocGet, getTrades, emaTrades, EMA.update,
      volWindow, List.drop, List.getLast?]
  refine ⟨?_, h2, h3, ?_⟩
  · rw [h1]
    intro hcontra
    have := congrArg (fun st => st.emas) hcontra
    simp [emaStore] at this
    norm_num at this
  · rw [h2, h3]
    norm_num

/-- The parts of the store state `getDerivedFeatures` never touches: order
books, trade tapes, and price histories. -/
theorem getDerivedFeatures_state_frame (s : MarketStateStore)
    (tokenId : String) (now : ℤ) :
    (getDerivedFeatures s tokenId now).2.books = s.books ∧
    (getDerivedFeatures s tokenId now).2.trades = s.trades ∧
    (getDerivedFeatures s tokenId now).2.priceHistory = s.priceHistory := by
  unfold getDerivedFeatures
  cases assocGet s.books tokenId
  · exact ⟨rfl, rfl, rfl⟩
  · exact ⟨rfl, rfl, rfl⟩

/-- Two stores agreeing on books, tapes and histories produce the same
derived features in every field except possibly `ema`. -/
theorem getDerivedFeatures_agree (s₁ s₂ : MarketStateStore) (tokenId : String)
    (now : ℤ) (hb : s₁.books = s₂.books) (ht : s₁.trades = s₂.trades)
    (hh : s₁.priceHistory = s₂.priceHistory) :
    (getDerivedFeatures s₁ tokenId now).1.midPrice
      = (getDerivedFeatures s₂ tokenId now).1.midPrice ∧
    (getDerivedFeatures s₁ tokenId now).1.spread
      = (getDerivedFeatures s₂ tokenId now).1.spread ∧
    (getDerivedFeatures s₁ tokenId now).1.spreadBps
      = (getDerivedFeatures s₂ tokenId now).1.spreadBps ∧
    (getDerivedFeatures s₁ tokenId now).1.bidDepth
      = (getDerivedFeatures s₂ tokenId now).1.bidDepth ∧
    (getDerivedFeatures s₁ tokenId now).1.askDepth
      = (getDerivedFeatures s₂ tokenId now).1.askDepth ∧
    (getDerivedFeatures s₁ tokenId now).1.ewmaVol
      = (getDerivedFeatures s₂ tokenId now).1.ewmaVol ∧
    (getDerivedFeatures s₁ tokenId now).1.lastUpdate
      = (getDerivedFeatures s₂ tokenId now).1.lastUpdate := by
  unfold getDerivedFeatures getTrades
  rw [hb, ht, hh]
  cases assocGet s₂.books tokenId
  · exact ⟨rfl, rfl, rfl, rfl, rfl, rfl, rfl⟩
  · exact ⟨rfl, rfl, rfl, rfl, rfl, rfl, rfl⟩

/-- C8 (amended): `getDerivedFeatures` changes no order-book, trade-tape or
price-history state, but it does update the per-token EMA state (it advances
the EMA towards the latest trade price); consequently two consecutive calls
with no intervening updates agree on `midPrice`, `spread`, `spreadBps`, the
depths, `ewmaVol` and `lastUpdate`, though possibly not on `ema`. -/
theorem getDerivedFeatures_frame (s : MarketStateStore) (tokenId : String)
    (now : ℤ) :
    (getDerivedFeatures s tokenId now).2.books = s.books ∧
    (getDerivedFeatures s tokenId now).2.trades = s.trades ∧
    (getDerivedFeatures s tokenId now).2.priceHistory = s.priceHistory ∧
    ((getDerivedFeatures (getDerivedFeatures s tokenId now).2 tokenId now).1.midPrice
        = (getDerivedFeatures s tokenId now).1.midPrice ∧
      (getDerivedFeatures (getDerivedFeatures s tokenId now).2 tokenId now).1.spread
        = (getDerivedFeatures s tokenId now).1.spread ∧
      (getDerivedFeatures (getDerivedFeatures s tokenId now).2 tokenId now).1.spreadBps
        = (getDerivedFeatures s tokenId now).1.spreadBps ∧
      (getDerivedFeatures (getDerivedFeatures s tokenId now).2 tokenId now).1.bidDepth
        = (getDerivedFeatures s tokenId now).1.bidDepth ∧
      (getDerivedFeatures (getDerivedFeatures s tokenId now).2 tokenId now).1.askDepth
        = (getDerivedFeatures s tokenId now).1.askDepth ∧
      (getDerivedFeatures (getDerivedFeatures s tokenId now).2 tokenId now).1.ewmaVol
        = (getDerivedFeatures s tokenId now).1.ewmaVol ∧
      (getDerivedFeatures (getDerivedFeatures s tokenId now).2 tokenId now).1.lastUpdate
        = (getDerivedFeatures s tokenId now).1.lastUpdate) := by
  obtain ⟨hb, ht, hh⟩ := getDerivedFeatures_state_frame s tokenId now
  exact ⟨hb, ht, hh,
    getDerivedFeatures_agree (getDerivedFeatures s tokenId now).2 s tokenId now hb ht hh⟩

end Feat
